import Mathlib

/-!
Verification of the bittorrent-client repository (TatuMon/bittorrent-client).

This file shallowly embeds the parts of the Go source that the claims
C1..C10 are about and proves or refutes each claim:

  * the wire codec `Message.Serialize` / `MessageFromStream`
    (src/src/torrents/messages.go),
  * the bitfield operations `HasPiece` / `SetPiece`
    (src/src/torrents/messages.go for the `torrents` package,
     src/src/p2p/messages.go for the `p2p` package),
  * `PieceBlockFromMessage`, `calcNextBlockSize`, `ValidateHash` and the
    driver loop `attemptPieceDownload` (src/src/torrents/pieces.go and the
    `pieces` package file src/unnamed/part_000),
  * `calculatePieceSize` (src/src/torrents/torrents.go) and the write
    offset computed by `writePiecesToFileAsync` (src/unnamed/part_000),
  * `peersFromTrackerResponse` (src/src/torrents/peers.go).

Bytes are modelled as natural numbers (Go `byte` / `uint8` values, always
< 256 in the running program); machine-width truncation is written as an
explicit `% 2 ^ 32` where the Go code converts to `uint32`.  A Go
expression that can panic (out-of-range slice, nil dereference) is
modelled with `Option`, `none` standing for the panic.
-/

/-- Go `binary.BigEndian.Uint32(b)` for bytes `b0 b1 b2 b3`: composes the
four bytes big-endian.  Go ORs the shifted bytes; for byte inputs
(`< 256`, guaranteed by the Go `byte` type) that OR is this sum. -/
def uint32BE (b0 b1 b2 b3 : ℕ) : ℕ :=
  b0 * 2 ^ 24 + b1 * 2 ^ 16 + b2 * 2 ^ 8 + b3

/-- Go `binary.BigEndian.Uint16(b)` for bytes `b4 b5`. -/
def uint16BE (b4 b5 : ℕ) : ℕ := b4 * 2 ^ 8 + b5

/-- Go `binary.BigEndian.PutUint32`: the four big-endian bytes of a
`uint32` value (`byte(v >> 24)`, `byte(v >> 16)`, `byte(v >> 8)`,
`byte(v)`). -/
def putUint32BE (n : ℕ) : List ℕ :=
  [n / 2 ^ 24 % 256, n / 2 ^ 16 % 256, n / 2 ^ 8 % 256, n % 256]

/-- `Message` from src/src/torrents/messages.go: a 1-byte ID
(`MessageID` is Go `uint8`, so `ID < 256` in the running program) and a
byte payload. -/
structure Message where
  ID : ℕ
  Payload : List ℕ
deriving DecidableEq, Repr

/-- The `MsgPiece` constant: seventh constant of the `iota` block. -/
def MsgPiece : ℕ := 7

/-- `Message.Serialize` (src/src/torrents/messages.go lines 35-47):
4-byte big-endian `uint32(1 + len(payload))`, then the ID byte, then the
payload.  The `% 2 ^ 32` is the Go `uint32(...)` conversion and the
`% 256` is `byte(m.ID)`. -/
def Message.Serialize (m : Message) : List ℕ :=
  putUint32BE ((1 + m.Payload.length) % 2 ^ 32) ++ (m.ID % 256) :: m.Payload

/-- `MessageFromStream` (src/src/torrents/messages.go lines 56-81) on a
byte stream.  `io.ReadFull` of `n` bytes succeeds exactly when the stream
still holds at least `n` bytes; the result also returns the bytes left
unread, so that keep-alive frames can be seen to consume nothing past the
length prefix.  `Except.ok (none, rest)` is the Go `(nil, nil)`
keep-alive return. -/
def MessageFromStream (s : List ℕ) : Except String (Option Message × List ℕ) :=
  match s with
  | b0 :: b1 :: b2 :: b3 :: rest =>
    let msgLen := uint32BE b0 b1 b2 b3
    if msgLen = 0 then .ok (none, rest)
    else
      match rest with
      | [] => .error "failed to read message id"
      | idByte :: rest2 =>
        if msgLen - 1 ≤ rest2.length then
          .ok (some ⟨idByte, rest2.take (msgLen - 1)⟩, rest2.drop (msgLen - 1))
        else .error "failed to read message payload"
  | _ => .error "failed to read message length"

namespace torrents

/-- `Bitfield.HasPiece` from src/src/torrents/messages.go lines 85-90.
`byteIndex := index / 8`, `bitIndex := index - 8*byteIndex`, and the test
is `b[byteIndex] & (1 << bitIndex) != 0` — the bit counted from the
LEAST-significant end.  Indexing out of range panics in Go (`none`). -/
def HasPiece (b : List ℕ) (index : ℕ) : Option Bool :=
  let byteIndex := index / 8
  let bitIndex := index - 8 * byteIndex
  if byteIndex < b.length then
    some (decide (b.getD byteIndex 0 &&& (1 <<< bitIndex) ≠ 0))
  else none

end torrents

namespace p2p

/-- `Bitfield.HasPiece` from src/src/p2p/messages.go lines 109-114: same
shape, but the mask is `1 << (7 - bitIndex)` — MOST-significant first. -/
def HasPiece (b : List ℕ) (index : ℕ) : Option Bool :=
  let byteIndex := index / 8
  let bitIndex := index - 8 * byteIndex
  if byteIndex < b.length then
    some (decide (b.getD byteIndex 0 &&& (1 <<< (7 - bitIndex)) ≠ 0))
  else none

/-- `Bitfield.SetPiece` from src/src/p2p/messages.go lines 116-121:
`b[byteIndex] |= 1 << (7 - bitIndex)`. -/
def SetPiece (b : List ℕ) (index : ℕ) : Option (List ℕ) :=
  let byteIndex := index / 8
  let bitIndex := index - 8 * byteIndex
  if byteIndex < b.length then
    some (b.set byteIndex (b.getD byteIndex 0 ||| (1 <<< (7 - bitIndex))))
  else none

end p2p

/-- Go slice expression `l[lo:hi]` on a slice whose capacity equals its
length (as produced by `make`/string conversion): panics (`none`) unless
`lo ≤ hi ≤ len(l)`. -/
def goSlice (l : List ℕ) (lo hi : ℕ) : Option (List ℕ) :=
  if lo ≤ hi ∧ hi ≤ l.length then some ((l.drop lo).take (hi - lo)) else none

/-- `binary.BigEndian.Uint32` applied to a (4-byte) slice value. -/
def uint32BEbytes (l : List ℕ) : ℕ :=
  uint32BE (l.getD 0 0) (l.getD 1 0) (l.getD 2 0) (l.getD 3 0)

/-- `binary.BigEndian.Uint16` applied to a (2-byte) slice value. -/
def uint16BEbytes (l : List ℕ) : ℕ := uint16BE (l.getD 0 0) (l.getD 1 0)

/-- `PieceBlock` from src/src/torrents/pieces.go lines 20-24. -/
structure PieceBlock where
  Index : ℕ
  Begin : ℕ
  Data : List ℕ
deriving DecidableEq, Repr

/-- `PieceBlockFromMessage` from src/src/torrents/pieces.go lines 26-38
(identical in src/unnamed/part_000 lines 29-41).  A non-piece ID returns
an error; otherwise the code slices `msg.Payload[0:4]`, `[4:8]` and
`[8:]` with no length check, so a payload shorter than 8 bytes makes the
slice expression panic (`none`). -/
def PieceBlockFromMessage (m : Message) : Option (Except String PieceBlock) :=
  if m.ID ≠ MsgPiece then
    some (.error "wrong message given: must be of type piece")
  else
    match goSlice m.Payload 0 4, goSlice m.Payload 4 8 with
    | some i4, some b4 =>
      some (.ok ⟨uint32BEbytes i4, uint32BEbytes b4, m.Payload.drop 8⟩)
    | _, _ => none

/-- 32-bit left rotation, as used by the Go `crypto/sha1` compression. -/
def rotl32 (n x : ℕ) : ℕ := ((x <<< n) ||| (x >>> (32 - n))) % 2 ^ 32

/-- SHA-1 round function (crypto/sha1; `^b` on `uint32` is the XOR with
all-ones below). -/
def sha1F (i b c d : ℕ) : ℕ :=
  if i < 20 then (b &&& c) ||| ((b ^^^ 0xFFFFFFFF) &&& d)
  else if i < 40 then b ^^^ c ^^^ d
  else if i < 60 then (b &&& c) ||| (b &&& d) ||| (c &&& d)
  else b ^^^ c ^^^ d

/-- SHA-1 round constants. -/
def sha1K (i : ℕ) : ℕ :=
  if i < 20 then 0x5A827999
  else if i < 40 then 0x6ED9EBA1
  else if i < 60 then 0x8F1BBCDC
  else 0xCA62C1D6

/-- SHA-1 message-schedule extension of the 16 chunk words to 80 words. -/
def sha1Extend (w16 : List ℕ) : List ℕ :=
  (List.range 64).foldl
    (fun w _ =>
      let n := w.length
      w ++ [rotl32 1 (w.getD (n - 3) 0 ^^^ w.getD (n - 8) 0 ^^^
                      w.getD (n - 14) 0 ^^^ w.getD (n - 16) 0)])
    w16

/-- SHA-1 compression of one 64-byte chunk into the running state. -/
def sha1Compress (h : ℕ × ℕ × ℕ × ℕ × ℕ) (chunk : List ℕ) : ℕ × ℕ × ℕ × ℕ × ℕ :=
  let ws := sha1Extend ((List.range 16).map (fun i =>
    uint32BE (chunk.getD (4 * i) 0) (chunk.getD (4 * i + 1) 0)
             (chunk.getD (4 * i + 2) 0) (chunk.getD (4 * i + 3) 0)))
  let fin := (List.range 80).foldl
    (fun (st : ℕ × ℕ × ℕ × ℕ × ℕ) i =>
      let a := st.1; let b := st.2.1; let c := st.2.2.1
      let d := st.2.2.2.1; let e := st.2.2.2.2
      let temp := (rotl32 5 a + sha1F i b c d + e + sha1K i + ws.getD i 0) % 2 ^ 32
      (temp, a, rotl32 30 b, c, d)) h
  ((h.1 + fin.1) % 2 ^ 32, (h.2.1 + fin.2.1) % 2 ^ 32,
   (h.2.2.1 + fin.2.2.1) % 2 ^ 32, (h.2.2.2.1 + fin.2.2.2.1) % 2 ^ 32,
   (h.2.2.2.2 + fin.2.2.2.2) % 2 ^ 32)

/-- SHA-1 padding: a `0x80` byte, zeros to 56 mod 64, then the 8-byte
big-endian bit length. -/
def sha1Pad (msg : List ℕ) : List ℕ :=
  let len := msg.length
  let zeros := (64 + 56 - (len + 1) % 64) % 64
  msg ++ [0x80] ++ List.replicate zeros 0 ++
    [8 * len / 2 ^ 56 % 256, 8 * len / 2 ^ 48 % 256, 8 * len / 2 ^ 40 % 256,
     8 * len / 2 ^ 32 % 256, 8 * len / 2 ^ 24 % 256, 8 * len / 2 ^ 16 % 256,
     8 * len / 2 ^ 8 % 256, 8 * len % 256]

/-- Split into 64-byte chunks.  The fuel argument bounds the recursion;
each step consumes at least one byte, so fuel = list length suffices. -/
def chunksOf64 : ℕ → List ℕ → List (List ℕ)
  | 0, _ => []
  | _, [] => []
  | fuel + 1, l => l.take 64 :: chunksOf64 fuel (l.drop 64)

/-- `sha1.Sum` from the Go standard library (the 20-byte SHA-1 digest),
as called by `PieceProgress.ValidateHash`. -/
def sha1Sum (msg : List ℕ) : List ℕ :=
  let padded := sha1Pad msg
  let h := (chunksOf64 padded.length padded).foldl sha1Compress
    (0x67452301, 0xEFCDAB89, 0x98BADCFE, 0x10325476, 0xC3D2E1F0)
  putUint32BE h.1 ++ putUint32BE h.2.1 ++ putUint32BE h.2.2.1 ++
    putUint32BE h.2.2.2.1 ++ putUint32BE h.2.2.2.2

/-- `PieceProgress` from src/src/torrents/pieces.go lines 45-53 (the
buffer has length `size`; `expectedHash` is the 20-byte digest from the
torrent). -/
structure PieceProgress where
  index : ℕ
  size : ℕ
  buf : List ℕ
  expectedHash : List ℕ
  completed : Bool
  requested : ℕ
  downloaded : ℕ
deriving DecidableEq, Repr

/-- `PieceProgress.ValidateHash` (src/src/torrents/pieces.go lines
75-83): digest the buffer with SHA-1 and compare with `expectedHash`;
`some err` is the non-nil error return on mismatch, `none` the nil
return. -/
def PieceProgress.ValidateHash (p : PieceProgress) : Option String :=
  if sha1Sum p.buf = p.expectedHash then none else some "hash mismatch."

/-- Where the driver sends a downloaded-and-verified piece. -/
inductive DriverDest where
  | workQueue
  | donePieces
deriving DecidableEq, Repr

/-- The reset performed on digest mismatch: `pieceProgress.requested = 0`
and `pieceProgress.downloaded = 0` (src/src/torrents/pieces.go lines
188-189; `reset()` in src/unnamed/part_000 lines 88-91). -/
def PieceProgress.reset (p : PieceProgress) : PieceProgress :=
  { p with requested := 0, downloaded := 0 }

/-- The verification branch of the driver loop `startPiecesDownload`
(src/src/torrents/pieces.go lines 186-194, src/unnamed/part_000 lines
205-212): on `ValidateHash` error the piece is reset and put back on the
work-queue channel; otherwise it is sent to the done-pieces channel. -/
def handleDownloadedPiece (p : PieceProgress) : PieceProgress × DriverDest :=
  match p.ValidateHash with
  | some _ => (p.reset, .workQueue)
  | none => (p, .donePieces)

/-- `Torrent.calculateBoundsForPiece` (src/src/torrents/torrents.go lines
50-54): `begin = index * pieceSize`, `end = min(begin + pieceSize,
fileSize)`. -/
def calculateBoundsForPiece (pieceSize fileSize index : ℕ) : ℕ × ℕ :=
  (index * pieceSize, min (index * pieceSize + pieceSize) fileSize)

/-- `Torrent.calculatePieceSize` (src/src/torrents/torrents.go lines
45-48): `end - begin` of the bounds; for the last piece of a file whose
size is not a multiple of the piece size this is smaller than
`pieceSize`. -/
def calculatePieceSize (pieceSize fileSize index : ℕ) : ℕ :=
  (calculateBoundsForPiece pieceSize fileSize index).2 -
    (calculateBoundsForPiece pieceSize fileSize index).1

/-- The file offset at which `writePiecesToFileAsync`
(src/unnamed/part_000 line 256) writes a finished piece:
`file.WriteAt(p.buf, int64(p.index*int(p.size)))`, i.e. the piece index
times the size OF THAT VERY PIECE (`p.size` is `calculatePieceSize index`, set
in `newPieceProgress`). -/
def writePieceOffset (pieceSize fileSize index : ℕ) : ℕ :=
  index * calculatePieceSize pieceSize fileSize index

/-- A peer as decoded from the compact tracker response
(src/src/torrents/peers.go lines 42-45): 4 IP bytes and a port. -/
structure GoPeer where
  IP : List ℕ
  Port : ℕ
deriving DecidableEq, Repr

/-- `peersFromTrackerResponse` (src/src/torrents/peers.go lines 129-157).
Empty `peers` string and a length not divisible by 6 return errors.  The
decoding loop is `for i := range chunkSize` — it always iterates
`i = 0..5`, slicing `t.Peers[i*6 : i*6+4]` and `[i*6+4 : i*6+6]`; a
decoded peer is kept only if its IP is not 0.0.0.0 and its port is not 0.
An out-of-range slice is a Go panic (`none`). -/
def peersFromTrackerResponse (peers : List ℕ) : Option (Except String (List GoPeer)) :=
  if peers.length = 0 then some (.error "tracker response does not contain peers")
  else if peers.length % 6 ≠ 0 then some (.error "received malformed peers")
  else
    (((List.range 6).foldlM (fun acc i =>
        match goSlice peers (i * 6) (i * 6 + 4), goSlice peers (i * 6 + 4) (i * 6 + 6) with
        | some ipSlice, some portSlice =>
          let newPeer : GoPeer := ⟨ipSlice, uint16BEbytes portSlice⟩
          some (if ipSlice ≠ [0, 0, 0, 0] ∧ newPeer.Port ≠ 0
                then acc ++ [newPeer] else acc)
        | _, _ => none) ([] : List GoPeer)).map .ok)

/-- `blockSize` constant (src/src/torrents/pieces.go line 17). -/
def goBlockSize : ℕ := 16 * 1024

/-- `PieceProgress.calcNextBlockSize` (src/src/torrents/pieces.go lines
65-73): the remaining bytes when fewer than a block remain, otherwise a
full 16 KiB block. -/
def calcNextBlockSize (size requested : ℕ) : ℕ :=
  if size - requested < goBlockSize then size - requested else goBlockSize

/-- The peer-connection state used by `attemptPieceDownload`.
Modelled from the spec: the `PeerConn` struct itself is not under src
(only its callers are); §3 of the spec gives its session state —
`peer_choking` initially true (so `unchoked` starts false) and
`in_flight` (the Go field `reqBacklog`) an integer counter of
outstanding requests.  `sentRequests` and `handledPieces` are ghost
logs: the `(begin, length)` arguments of every `sendRequestMsg` call and
the number of piece messages handled. -/
structure PeerConnSt where
  unchoked : Bool
  reqBacklog : ℤ
  sentRequests : List (ℕ × ℕ)
  handledPieces : ℕ
deriving DecidableEq, Repr

/-- The piece fields touched by `attemptPieceDownload` (`buf` itself is
not needed for the claims about the loop; `len(piece.buf) = size`). -/
structure PieceSt where
  index : ℕ
  size : ℕ
  requested : ℕ
  downloaded : ℕ
deriving DecidableEq, Repr

/-- One message delivered by `peer.Read()`, already classified.
Modelled from the spec: `PeerConn.Read` is not under src; §4.2 gives its
receive transitions (choke/unchoke toggle `peer_choking`; a keep-alive
is the nil message of `MessageFromStream`; a piece message reaches the
driver). `pieceBlock` carries the parsed index, begin and data length. -/
inductive PeerMsg where
  | keepAlive
  | choke
  | unchoke
  | pieceBlock (index begin dataLen : ℕ)
  | other (id : ℕ)
deriving DecidableEq, Repr

/-- The request-pipelining inner loop of `attemptPieceDownload`
(src/src/torrents/pieces.go lines 102-111, src/unnamed/part_000 lines
107-116): while `reqBacklog < maxReqBacklog (= 5, spec MAX_BACKLOG)` and
`requested < size`, send `request(index, requested, calcNextBlockSize)`,
increment the backlog and advance `requested`.  The fuel argument only
bounds the recursion: every iteration advances `requested` by at least
one byte, so `size - requested + 1` iterations are never exhausted. -/
def requestBurstFuel : ℕ → PeerConnSt → PieceSt → PeerConnSt × PieceSt
  | 0, peer, piece => (peer, piece)
  | fuel + 1, peer, piece =>
    if peer.reqBacklog < 5 ∧ piece.requested < piece.size then
      let c := calcNextBlockSize piece.size piece.requested
      requestBurstFuel fuel
        { peer with reqBacklog := peer.reqBacklog + 1,
                    sentRequests := peer.sentRequests ++ [(piece.requested, c)] }
        { piece with requested := piece.requested + c }
    else (peer, piece)

/-- The inner loop with sufficient fuel. -/
def requestBurst (peer : PeerConnSt) (piece : PieceSt) : PeerConnSt × PieceSt :=
  requestBurstFuel (piece.size - piece.requested + 1) peer piece

/-- Receive side effects of `peer.Read()` on the session state.
Modelled from the spec (§4.2): `choke` sets `peer_choking`, `unchoke`
clears it, other messages leave the session state of interest
unchanged. -/
def applyRecv (peer : PeerConnSt) (m : PeerMsg) : PeerConnSt :=
  match m with
  | .choke => { peer with unchoked := false }
  | .unchoke => { peer with unchoked := true }
  | _ => peer

/-- One iteration of the outer `for piece.downloaded < piece.size` loop
of `attemptPieceDownload` (src/unnamed/part_000 lines 105-148; the
src/src/torrents/pieces.go version lines 100-143 differs only in the
missing nil-message guard, treated separately): if the piece is not yet
complete, run the request burst when unchoked, read one message, and on
a piece message check its index, begin and length, copy the data and
decrement the backlog.  `none` models the error returns (which abort the
attempt) — states after an abort are not reachable. -/
def loopStep (st : PeerConnSt × PieceSt) (m : PeerMsg) : Option (PeerConnSt × PieceSt) :=
  let peer := st.1
  let piece := st.2
  if piece.downloaded < piece.size then
    let st2 := if peer.unchoked then requestBurst peer piece else (peer, piece)
    let peer2 := applyRecv st2.1 m
    let piece2 := st2.2
    match m with
    | .pieceBlock blockIndex blockBegin dataLen =>
      if blockIndex ≠ piece2.index then none
      else if blockBegin ≥ piece2.size then none
      else if blockBegin + dataLen > piece2.size then none
      else
        some ({ peer2 with reqBacklog := peer2.reqBacklog - 1,
                           handledPieces := peer2.handledPieces + 1 },
              { piece2 with downloaded := piece2.downloaded + dataLen })
    | _ => some (peer2, piece2)
  else some (peer, piece)

/-- Run the download loop over a list of delivered messages. -/
def runLoop : PeerConnSt × PieceSt → List PeerMsg → Option (PeerConnSt × PieceSt)
  | st, [] => some st
  | st, m :: ms =>
    match loopStep st m with
    | none => none
    | some st2 => runLoop st2 ms

/-- The session state at the start of an attempt: `peer_choking` true
(spec §3), no outstanding requests. -/
def initPeer : PeerConnSt := ⟨false, 0, [], 0⟩

/-- A fresh `PieceProgress` for one piece (`newPieceProgress`,
src/src/torrents/pieces.go lines 55-63): nothing requested or
downloaded. -/
def initPiece (index size : ℕ) : PieceSt := ⟨index, size, 0, 0⟩

/-- The nil-message guard of the src/src/torrents/pieces.go loop (line
119): the received message is used as `msg.ID == MsgPiece` with no nil
check, so the keep-alive `nil` message panics (`none`); on a non-nil
message it decides whether the piece branch runs. -/
def torrentsPieceGuard (msg : Option Message) : Option Bool :=
  match msg with
  | none => none
  | some m => some (decide (m.ID = MsgPiece))

/-- The nil-message guard of the src/unnamed/part_000 loop (line 124):
`msg != nil && msg.ID == p2p.MsgPiece` — short-circuits on nil, so a
keep-alive just skips the piece branch. -/
def piecesPieceGuard (msg : Option Message) : Bool :=
  match msg with
  | none => false
  | some m => decide (m.ID = MsgPiece)

/-- Loop invariant of `attemptPieceDownload`: the backlog is at most 5
and equals requests sent minus piece messages handled; every logged
request starts on a block boundary inside the piece, has the size
`calcNextBlockSize` gave it, and ends at or before the current
`requested` mark; begins are strictly increasing. -/
def LoopInv (st : PeerConnSt × PieceSt) : Prop :=
  st.1.reqBacklog ≤ 5 ∧
  st.1.reqBacklog = (st.1.sentRequests.length : ℤ) - (st.1.handledPieces : ℤ) ∧
  st.2.requested ≤ st.2.size ∧
  (goBlockSize ∣ st.2.requested ∨ st.2.requested = st.2.size) ∧
  (∀ bl ∈ st.1.sentRequests, bl.1 < st.2.size ∧ goBlockSize ∣ bl.1 ∧
      bl.2 = min goBlockSize (st.2.size - bl.1) ∧ bl.1 + bl.2 ≤ st.2.requested) ∧
  st.1.sentRequests.Pairwise (fun x y => x.1 < y.1)

instance {ε α : Type} [DecidableEq ε] [DecidableEq α] : DecidableEq (Except ε α) := fun x y =>
  match x, y with
  | .ok a, .ok b =>
    if h : a = b then .isTrue (h ▸ rfl) else .isFalse (fun hc => h (Except.ok.inj hc))
  | .error a, .error b =>
    if h : a = b then .isTrue (h ▸ rfl) else .isFalse (fun hc => h (Except.error.inj hc))
  | .ok _, .error _ => .isFalse (fun hc => Except.noConfusion hc)
  | .error _, .ok _ => .isFalse (fun hc => Except.noConfusion hc)

lemma uint32BE_putUint32BE (n : ℕ) (h : n < 2 ^ 32) :
    uint32BE (n / 2 ^ 24 % 256) (n / 2 ^ 16 % 256) (n / 2 ^ 8 % 256) (n % 256) = n := by
  unfold uint32BE
  omega

/-- Parsing a well-formed frame: length prefix `L = len(payload) + 1`
(fitting `uint32`), then the ID byte and the payload; any following bytes
are left unread. -/
lemma MessageFromStream_frame (idByte : ℕ) (payload rest : List ℕ)
    (h : payload.length + 1 < 2 ^ 32) :
    MessageFromStream (putUint32BE (payload.length + 1) ++ idByte :: payload ++ rest) =
      .ok (some ⟨idByte, payload⟩, rest) := by
  have hne : payload.length + 1 ≠ 0 := by omega
  have hdec := uint32BE_putUint32BE (payload.length + 1) h
  simp only [putUint32BE] at hdec ⊢
  simp only [List.cons_append, List.nil_append, MessageFromStream, hdec, if_neg hne,
    Nat.add_sub_cancel]
  rw [if_pos (by simp)]
  simp [List.take_left, List.drop_left]

lemma and_shift_ne_zero (x k : ℕ) : decide (x &&& (1 <<< k) ≠ 0) = x.testBit k := by
  rw [Nat.shiftLeft_eq, one_mul, Nat.and_two_pow]
  cases h : x.testBit k <;> simp [h, Nat.pow_eq_zero]

lemma calcNextBlockSize_eq_min (s r : ℕ) :
    calcNextBlockSize s r = min goBlockSize (s - r) := by
  unfold calcNextBlockSize goBlockSize
  split <;> omega

lemma requestBurstFuel_size (fuel : ℕ) :
    ∀ (peer : PeerConnSt) (piece : PieceSt),
      (requestBurstFuel fuel peer piece).2.size = piece.size ∧
      (requestBurstFuel fuel peer piece).2.index = piece.index ∧
      (requestBurstFuel fuel peer piece).2.downloaded = piece.downloaded := by
  induction fuel with
  | zero => intro peer piece; simp [requestBurstFuel]
  | succ n ih =>
    intro peer piece
    rw [requestBurstFuel]
    split
    · exact ih _ _
    · simp

lemma requestBurstFuel_inv (fuel : ℕ) :
    ∀ (peer : PeerConnSt) (piece : PieceSt),
      LoopInv (peer, piece) → LoopInv (requestBurstFuel fuel peer piece) := by
  induction fuel with
  | zero => intro peer piece h; simpa [requestBurstFuel] using h
  | succ n ih =>
    intro peer piece h
    rw [requestBurstFuel]
    split
    case isTrue hc =>
      apply ih
      obtain ⟨hb5, hbid, hreq, hdvd, hlog, hpw⟩ := h
      simp only at hb5 hbid hreq hdvd hlog hpw
      have hr : piece.requested < piece.size := hc.2
      have hdvd2 : goBlockSize ∣ piece.requested := by
        rcases hdvd with h | h
        · exact h
        · omega
      have hmin := calcNextBlockSize_eq_min piece.size piece.requested
      refine ⟨?_, ?_, ?_, ?_, ?_, ?_⟩
      · simp only
        omega
      · simp only [List.length_append, List.length_singleton]
        push_cast
        omega
      · simp only
        simp only [goBlockSize] at hmin ⊢
        omega
      · simp only
        simp only [goBlockSize] at hmin hdvd2 ⊢
        omega
      · simp only
        intro bl hbl
        rcases List.mem_append.mp hbl with hbl | hbl
        · obtain ⟨h1, h2, h3, h4⟩ := hlog bl hbl
          refine ⟨h1, h2, h3, ?_⟩
          simp only [goBlockSize] at hmin ⊢
          omega
        · simp only [List.mem_singleton] at hbl
          subst hbl
          exact ⟨hr, hdvd2, hmin, le_refl _⟩
      · simp only
        refine List.pairwise_append.mpr ⟨hpw, List.pairwise_singleton _ _, ?_⟩
        intro x hx y hy
        simp only [List.mem_singleton] at hy
        subst hy
        obtain ⟨h1, h2, h3, h4⟩ := hlog x hx
        simp only [goBlockSize] at h3 ⊢
        omega
    case isFalse => exact h

lemma applyRecv_fields (peer : PeerConnSt) (m : PeerMsg) :
    (applyRecv peer m).reqBacklog = peer.reqBacklog ∧
    (applyRecv peer m).sentRequests = peer.sentRequests ∧
    (applyRecv peer m).handledPieces = peer.handledPieces := by
  cases m <;> simp [applyRecv]

lemma loopStep_inv (st : PeerConnSt × PieceSt) (m : PeerMsg)
    (st2 : PeerConnSt × PieceSt) (hstep : loopStep st m = some st2)
    (h : LoopInv st) : LoopInv st2 := by
  obtain ⟨peer, piece⟩ := st
  unfold loopStep at hstep
  simp only at hstep
  by_cases hdl : piece.downloaded < piece.size
  · rw [if_pos hdl] at hstep
    set stb := if peer.unchoked then requestBurst peer piece else (peer, piece) with hstb
    have hinvb : LoopInv stb := by
      rw [hstb]
      split
      · exact requestBurstFuel_inv _ _ _ h
      · exact h
    have hfields := applyRecv_fields stb.1 m
    cases m with
    | pieceBlock blockIndex blockBegin dataLen =>
      simp only at hstep
      by_cases h1 : blockIndex ≠ stb.2.index
      · rw [if_pos h1] at hstep; cases hstep
      · rw [if_neg h1] at hstep
        by_cases h2 : blockBegin ≥ stb.2.size
        · rw [if_pos h2] at hstep; cases hstep
        · rw [if_neg h2] at hstep
          by_cases h3 : blockBegin + dataLen > stb.2.size
          · rw [if_pos h3] at hstep; cases hstep
          · rw [if_neg h3] at hstep
            obtain ⟨hb5, hbid, hreq, hdvd, hlog, hpw⟩ := hinvb
            cases hstep
            refine ⟨?_, ?_, hreq, hdvd, hlog, hpw⟩
            · simp only [hfields.1]
              omega
            · simp only [hfields.1, hfields.2.1, hfields.2.2]
              push_cast
              omega
    | keepAlive =>
      cases hstep
      obtain ⟨hb5, hbid, hreq, hdvd, hlog, hpw⟩ := hinvb
      exact ⟨by simp only [hfields.1]; omega,
             by simp only [hfields.1, hfields.2.1, hfields.2.2]; omega,
             hreq, hdvd, by simpa [hfields.2.1] using hlog,
             by simpa [hfields.2.1] using hpw⟩
    | choke =>
      cases hstep
      obtain ⟨hb5, hbid, hreq, hdvd, hlog, hpw⟩ := hinvb
      exact ⟨by simp only [hfields.1]; omega,
             by simp only [hfields.1, hfields.2.1, hfields.2.2]; omega,
             hreq, hdvd, by simpa [hfields.2.1] using hlog,
             by simpa [hfields.2.1] using hpw⟩
    | unchoke =>
      cases hstep
      obtain ⟨hb5, hbid, hreq, hdvd, hlog, hpw⟩ := hinvb
      exact ⟨by simp only [hfields.1]; omega,
             by simp only [hfields.1, hfields.2.1, hfields.2.2]; omega,
             hreq, hdvd, by simpa [hfields.2.1] using hlog,
             by simpa [hfields.2.1] using hpw⟩
    | other id =>
      cases hstep
      obtain ⟨hb5, hbid, hreq, hdvd, hlog, hpw⟩ := hinvb
      exact ⟨by simp only [hfields.1]; omega,
             by simp only [hfields.1, hfields.2.1, hfields.2.2]; omega,
             hreq, hdvd, by simpa [hfields.2.1] using hlog,
             by simpa [hfields.2.1] using hpw⟩
  · rw [if_neg hdl] at hstep
    cases hstep
    exact h

lemma runLoop_inv (msgs : List PeerMsg) :
    ∀ (st st2 : PeerConnSt × PieceSt), runLoop st msgs = some st2 →
      LoopInv st → LoopInv st2 := by
  induction msgs with
  | nil =>
    intro st st2 hrun h
    unfold runLoop at hrun
    cases hrun
    exact h
  | cons m ms ih =>
    intro st st2 hrun h
    unfold runLoop at hrun
    cases hstep : loopStep st m with
    | none => rw [hstep] at hrun; cases hrun
    | some stm =>
      rw [hstep] at hrun
      exact ih stm st2 hrun (loopStep_inv st m stm hstep h)

lemma initLoopInv (index size : ℕ) : LoopInv (initPeer, initPiece index size) := by
  refine ⟨by simp [initPeer], by simp [initPeer], by simp [initPiece],
    Or.inl (by simp [initPiece]), ?_, by simp [initPeer]⟩
  intro bl hbl
  simp [initPeer] at hbl

lemma loopStep_size (st : PeerConnSt × PieceSt) (m : PeerMsg)
    (st2 : PeerConnSt × PieceSt) (hstep : loopStep st m = some st2) :
    st2.2.size = st.2.size := by
  obtain ⟨peer, piece⟩ := st
  unfold loopStep at hstep
  simp only at hstep
  by_cases hdl : piece.downloaded < piece.size
  · rw [if_pos hdl] at hstep
    set stb := if peer.unchoked then requestBurst peer piece else (peer, piece) with hstb
    have hszb : stb.2.size = piece.size := by
      rw [hstb]
      split
      · exact (requestBurstFuel_size _ _ _).1
      · rfl
    cases m with
    | pieceBlock blockIndex blockBegin dataLen =>
      simp only at hstep
      by_cases h1 : blockIndex ≠ stb.2.index
      · rw [if_pos h1] at hstep; cases hstep
      · rw [if_neg h1] at hstep
        by_cases h2 : blockBegin ≥ stb.2.size
        · rw [if_pos h2] at hstep; cases hstep
        · rw [if_neg h2] at hstep
          by_cases h3 : blockBegin + dataLen > stb.2.size
          · rw [if_pos h3] at hstep; cases hstep
          · rw [if_neg h3] at hstep
            cases hstep
            exact hszb
    | keepAlive => cases hstep; exact hszb
    | choke => cases hstep; exact hszb
    | unchoke => cases hstep; exact hszb
    | other id => cases hstep; exact hszb
  · rw [if_neg hdl] at hstep
    cases hstep
    rfl

lemma runLoop_size (msgs : List PeerMsg) :
    ∀ (st st2 : PeerConnSt × PieceSt), runLoop st msgs = some st2 →
      st2.2.size = st.2.size := by
  induction msgs with
  | nil =>
    intro st st2 hrun
    unfold runLoop at hrun
    cases hrun
    rfl
  | cons m ms ih =>
    intro st st2 hrun
    unfold runLoop at hrun
    cases hstep : loopStep st m with
    | none => rw [hstep] at hrun; cases hrun
    | some stm =>
      rw [hstep] at hrun
      rw [ih stm st2 hrun, loopStep_size st m stm hstep]

lemma block_last (size b l : ℕ) (h1 : b < size) (h2 : goBlockSize ∣ b)
    (h3 : l = min goBlockSize (size - b)) :
    l = goBlockSize ∨ (b + l = size ∧ l = size % goBlockSize ∧ size % goBlockSize ≠ 0) := by
  simp only [goBlockSize] at *
  omega

/-- C1: the claim says every verified piece is written at absolute offset
`index × piece_size` (the uniform piece size of the torrent), the last,
shorter piece included.  The code instead writes at
`p.index * p.size` where `p.size` is the own size of that piece, the
`calculatePieceSize` value: for piece size 16384 and file size 20000 the
last piece (index 1, size 3616) is written at offset 3616 — inside piece
0 and not at the claimed 16384 — so the output file is corrupt
whenever the last piece is shorter and its index is nonzero. -/
theorem c1_writeOffset_lastPiece_bug :
    calculatePieceSize 16384 20000 0 = 16384 ∧
    calculatePieceSize 16384 20000 1 = 3616 ∧
    writePieceOffset 16384 20000 1 = 3616 ∧
    writePieceOffset 16384 20000 1 ≠ 1 * 16384 ∧
    writePieceOffset 16384 20000 1 < calculatePieceSize 16384 20000 0 := by
  decide

/-- C2 (counterexample): the claim says `HasPiece(B, i)` reads bit
`7 − i mod 8` of byte `i/8` and that `has([0x37, 0x9C], 0) = false`,
but the `torrents` implementation returns `true` at index 0 — it does
not read bit `7 − 0 mod 8` of `0x37` (that bit is 0). -/
theorem c2_counterexample :
    torrents.HasPiece [0x37, 0x9C] 0 = some true ∧
    (0x37 : ℕ).testBit (7 - 0 % 8) = false := by
  decide

/-- C2 (amended): the two bitfield implementations disagree.  The `p2p`
package is MSB-first — `HasPiece` reads and `SetPiece` sets bit
`7 − i mod 8` of byte `i/8`, and all the concrete examples of the claim
hold of it — while the `torrents` package `HasPiece` is LSB-first,
reading bit `i mod 8` (as its own unit tests assert), so for
B = [0x37, 0x9C] it yields `has(0) = true`, `has(4) = true` and
`has(7) = false`. -/
theorem c2_bitfield_bit_order :
    (∀ (b : List ℕ) (i : ℕ), i / 8 < b.length →
        p2p.HasPiece b i = some ((b.getD (i / 8) 0).testBit (7 - i % 8)) ∧
        torrents.HasPiece b i = some ((b.getD (i / 8) 0).testBit (i % 8)) ∧
        p2p.SetPiece b i =
          some (b.set (i / 8) (b.getD (i / 8) 0 ||| 2 ^ (7 - i % 8)))) ∧
    (p2p.HasPiece [0x37, 0x9C] 0 = some false ∧
     p2p.HasPiece [0x37, 0x9C] 2 = some true ∧
     p2p.HasPiece [0x37, 0x9C] 4 = some false ∧
     p2p.HasPiece [0x37, 0x9C] 11 = some true ∧
     p2p.HasPiece [0x37, 0x9C] 14 = some false ∧
     p2p.SetPiece [0x37, 0x9C] 4 = some [0x3F, 0x9C] ∧
     torrents.HasPiece [0x37, 0x9C] 0 = some true ∧
     torrents.HasPiece [0x37, 0x9C] 4 = some true ∧
     torrents.HasPiece [0x37, 0x9C] 7 = some false) := by
  constructor
  · intro b i h
    have hbit : i - 8 * (i / 8) = i % 8 := by omega
    refine ⟨?_, ?_, ?_⟩
    · simp only [p2p.HasPiece, hbit, if_pos h, and_shift_ne_zero]
    · simp only [torrents.HasPiece, hbit, if_pos h, and_shift_ne_zero]
    · simp only [p2p.SetPiece, hbit, if_pos h, Nat.shiftLeft_eq, one_mul]
  · decide

/-- C2 (witness): the amended statement applied at B = [0x37, 0x9C],
i = 12. -/
theorem c2_bitfield_bit_order_witness :
    12 / 8 < ([0x37, 0x9C] : List ℕ).length ∧
    (p2p.HasPiece [0x37, 0x9C] 12 =
        some ((([0x37, 0x9C] : List ℕ).getD (12 / 8) 0).testBit (7 - 12 % 8)) ∧
     torrents.HasPiece [0x37, 0x9C] 12 =
        some ((([0x37, 0x9C] : List ℕ).getD (12 / 8) 0).testBit (12 % 8)) ∧
     p2p.SetPiece [0x37, 0x9C] 12 =
        some (([0x37, 0x9C] : List ℕ).set (12 / 8)
          (([0x37, 0x9C] : List ℕ).getD (12 / 8) 0 ||| 2 ^ (7 - 12 % 8)))) :=
  ⟨by decide, c2_bitfield_bit_order.1 [0x37, 0x9C] 12 (by decide)⟩

/-- C3: the claim says a compact peers string of length 6·k decodes to
exactly its k peers, errs only on empty or non-multiple-of-6 input, and
never panics.  The decoding loop is `for i := range chunkSize`, i.e.
always six iterations: a single-peer string (6 bytes) panics at i = 1
with an out-of-range slice (`none` below) instead of returning the one
peer 1.2.3.4:6881, and a 7-peer string returns only the first six
peers.  The error cases themselves behave as claimed. -/
theorem c3_peers_loop_bug :
    peersFromTrackerResponse [1, 2, 3, 4, 26, 225] = none ∧
    peersFromTrackerResponse [] =
      some (.error "tracker response does not contain peers") ∧
    peersFromTrackerResponse [1, 2, 3] =
      some (.error "received malformed peers") ∧
    peersFromTrackerResponse
      [10, 0, 0, 1, 0, 80, 10, 0, 0, 2, 0, 81, 10, 0, 0, 3, 0, 82,
       10, 0, 0, 4, 0, 83, 10, 0, 0, 5, 0, 84, 10, 0, 0, 6, 0, 85,
       10, 0, 0, 7, 0, 86] =
      some (.ok [⟨[10, 0, 0, 1], 80⟩, ⟨[10, 0, 0, 2], 81⟩,
                 ⟨[10, 0, 0, 3], 82⟩, ⟨[10, 0, 0, 4], 83⟩,
                 ⟨[10, 0, 0, 5], 84⟩, ⟨[10, 0, 0, 6], 85⟩]) := by
  decide

/-- C4 (counterexample): the claim asserts `0 ≤ reqBacklog ≤ 5` at every
step.  From the initial state (choked, backlog 0), a single unsolicited
but otherwise valid piece message is decremented unconditionally, making
the backlog −1. -/
theorem c4_counterexample :
    (runLoop (initPeer, initPiece 0 16384) [.pieceBlock 0 0 1]).map
        (fun st => st.1.reqBacklog) = some (-1) ∧
    ¬ (0 : ℤ) ≤ -1 := by
  decide

/-- C4 (amended): the upper half of the claimed invariant holds —
`reqBacklog ≤ 5` at every reachable state, because the send loop
increments only while strictly below 5 — and `reqBacklog` always equals
requests sent minus piece messages handled, so it also stays `≥ 0`
exactly as long as the peer never delivers more piece messages than were
requested; an unsolicited piece message drives it below 0 (see the
counterexample). -/
theorem c4_backlog_amended :
    ∀ (index size : ℕ) (msgs : List PeerMsg) (st : PeerConnSt × PieceSt),
      runLoop (initPeer, initPiece index size) msgs = some st →
      st.1.reqBacklog ≤ 5 ∧
      st.1.reqBacklog = (st.1.sentRequests.length : ℤ) - (st.1.handledPieces : ℤ) := by
  intro index size msgs st hrun
  have h := runLoop_inv msgs _ st hrun (initLoopInv index size)
  exact ⟨h.1, h.2.1⟩

/-- C4 (witness): a clean one-piece session — unchoke, one request sent,
one solicited piece received — reaching backlog 0 = 1 sent − 1
handled. -/
theorem c4_backlog_amended_witness :
    runLoop (initPeer, initPiece 0 16384) [.unchoke, .pieceBlock 0 0 16384] =
      some (⟨true, 0, [(0, 16384)], 1⟩, ⟨0, 16384, 16384, 16384⟩) ∧
    ((⟨true, 0, [(0, 16384)], 1⟩ : PeerConnSt).reqBacklog ≤ 5 ∧
     (⟨true, 0, [(0, 16384)], 1⟩ : PeerConnSt).reqBacklog =
       ((⟨true, 0, [(0, 16384)], 1⟩ : PeerConnSt).sentRequests.length : ℤ) -
         ((⟨true, 0, [(0, 16384)], 1⟩ : PeerConnSt).handledPieces : ℤ)) :=
  ⟨by decide, c4_backlog_amended 0 16384 [.unchoke, .pieceBlock 0 0 16384]
      (⟨true, 0, [(0, 16384)], 1⟩, ⟨0, 16384, 16384, 16384⟩) (by decide)⟩

/-- C5: every request the pipelined loop sends has begin equal to the
`requested` mark at send time and length `min(16·1024, size − begin)`;
consequently each is exactly 16 KiB except possibly the last request of
a piece whose size is not a multiple of 16 KiB (whose length is
`size mod 16·1024`), and begins are strictly increasing. -/
theorem c5_request_blocks :
    ∀ (index size : ℕ) (msgs : List PeerMsg) (st : PeerConnSt × PieceSt),
      runLoop (initPeer, initPiece index size) msgs = some st →
      (∀ bl ∈ st.1.sentRequests,
          bl.2 = min goBlockSize (size - bl.1) ∧
          (bl.2 = goBlockSize ∨
            (bl.1 + bl.2 = size ∧ bl.2 = size % goBlockSize ∧
             size % goBlockSize ≠ 0))) ∧
      st.1.sentRequests.Pairwise (fun x y => x.1 < y.1) := by
  intro index size msgs st hrun
  have h := runLoop_inv msgs _ st hrun (initLoopInv index size)
  have hsz : st.2.size = size := runLoop_size msgs _ st hrun
  obtain ⟨-, -, -, -, hlog, hpw⟩ := h
  refine ⟨?_, hpw⟩
  intro bl hbl
  obtain ⟨h1, h2, h3, h4⟩ := hlog bl hbl
  rw [hsz] at h1 h3
  exact ⟨h3, block_last size bl.1 bl.2 h1 h2 h3⟩

/-- C5 (witness): a 20000-byte piece (16 KiB piece size would not divide
it): the two requests sent are (0, 16384) and (16384, 3616), increasing,
the second being the short tail `20000 mod 16384`. -/
theorem c5_request_blocks_witness :
    runLoop (initPeer, initPiece 0 20000)
        [.unchoke, .pieceBlock 0 0 16384, .pieceBlock 0 16384 3616] =
      some (⟨true, 0, [(0, 16384), (16384, 3616)], 2⟩, ⟨0, 20000, 20000, 20000⟩) ∧
    ((∀ bl ∈ (⟨true, 0, [(0, 16384), (16384, 3616)], 2⟩ : PeerConnSt).sentRequests,
        bl.2 = min goBlockSize (20000 - bl.1) ∧
        (bl.2 = goBlockSize ∨
          (bl.1 + bl.2 = 20000 ∧ bl.2 = 20000 % goBlockSize ∧
           20000 % goBlockSize ≠ 0))) ∧
     (⟨true, 0, [(0, 16384), (16384, 3616)], 2⟩ : PeerConnSt).sentRequests.Pairwise
       (fun x y => x.1 < y.1)) :=
  ⟨by decide, c5_request_blocks 0 20000
      [.unchoke, .pieceBlock 0 0 16384, .pieceBlock 0 16384 3616]
      (⟨true, 0, [(0, 16384), (16384, 3616)], 2⟩, ⟨0, 20000, 20000, 20000⟩) (by decide)⟩

/-- C6: `ValidateHash` returns nil exactly when the SHA-1 digest of the
piece buffer equals the expected digest, and on a non-nil error the
driver resets `requested` and `downloaded` to 0 and puts the piece back
on the work queue instead of delivering it to the done-pieces stream. -/
theorem c6_validateHash_reset :
    ∀ p : PieceProgress,
      (p.ValidateHash = none ↔ sha1Sum p.buf = p.expectedHash) ∧
      (∀ e, p.ValidateHash = some e →
        handleDownloadedPiece p =
          ({ p with requested := 0, downloaded := 0 }, .workQueue)) ∧
      (p.ValidateHash = none → handleDownloadedPiece p = (p, .donePieces)) := by
  intro p
  refine ⟨?_, ?_, ?_⟩
  · unfold PieceProgress.ValidateHash
    by_cases hc : sha1Sum p.buf = p.expectedHash <;> simp [hc]
  · intro e he
    unfold handleDownloadedPiece
    rw [he]
    rfl
  · intro he
    unfold handleDownloadedPiece
    rw [he]

set_option maxRecDepth 20000 in
/-- C6 (witness): a piece whose expected digest is the digest of its
(empty) buffer verifies and goes to the done stream; one whose expected
digest is 20 zero bytes fails, is reset from requested = 3 and
downloaded = 4 to zeros, and goes back to the work queue. -/
theorem c6_validateHash_reset_witness :
    (PieceProgress.ValidateHash ⟨0, 0, [], sha1Sum [], false, 0, 0⟩ = none ∧
     handleDownloadedPiece ⟨0, 0, [], sha1Sum [], false, 0, 0⟩ =
       (⟨0, 0, [], sha1Sum [], false, 0, 0⟩, .donePieces)) ∧
    (PieceProgress.ValidateHash ⟨0, 0, [], List.replicate 20 0, false, 3, 4⟩ =
       some "hash mismatch." ∧
     handleDownloadedPiece ⟨0, 0, [], List.replicate 20 0, false, 3, 4⟩ =
       (⟨0, 0, [], List.replicate 20 0, false, 0, 0⟩, .workQueue)) :=
  ⟨⟨by decide, (c6_validateHash_reset ⟨0, 0, [], sha1Sum [], false, 0, 0⟩).2.2 (by decide)⟩,
   ⟨by decide, (c6_validateHash_reset ⟨0, 0, [], List.replicate 20 0, false, 3, 4⟩).2.1
       "hash mismatch." (by decide)⟩⟩

lemma serialize_length_overflow (pl : List ℕ) (hlen : pl.length = 2 ^ 32 - 1) :
    Message.Serialize ⟨7, pl⟩ = [0, 0, 0, 0] ++ 7 :: pl := by
  unfold Message.Serialize
  rw [hlen]
  norm_num [putUint32BE]

lemma messageFromStream_keepAlive (rest : List ℕ) :
    MessageFromStream ([0, 0, 0, 0] ++ rest) = .ok (none, rest) := by
  simp [MessageFromStream, uint32BE]

/-- C7 (counterexample): the claim quantifies over messages with any
payload, but the length prefix is `uint32(1 + len(payload))`: at payload
length 2^32 − 1 the prefix truncates to 0, the serialized frame starts
with four zero bytes, and parsing returns the keep-alive (nil message)
instead of a message with the same ID and payload. -/
theorem c7_counterexample :
    Message.Serialize ⟨7, List.replicate (2 ^ 32 - 1) 0⟩ =
      [0, 0, 0, 0] ++ 7 :: List.replicate (2 ^ 32 - 1) 0 ∧
    MessageFromStream (Message.Serialize ⟨7, List.replicate (2 ^ 32 - 1) 0⟩) =
      .ok (none, 7 :: List.replicate (2 ^ 32 - 1) 0) ∧
    (none : Option Message) ≠ some ⟨7, List.replicate (2 ^ 32 - 1) 0⟩ := by
  have hser := serialize_length_overflow (List.replicate (2 ^ 32 - 1) 0)
    (List.length_replicate _ _)
  refine ⟨hser, ?_, fun h => Option.noConfusion h⟩
  rw [hser]
  exact messageFromStream_keepAlive _

/-- C7 (amended): framing round-trips for every message whose payload
length L − 1 lets the prefix L fit a `uint32` (the ID is a `uint8`,
hence the `< 256` hypothesis, which every Go `MessageID` value
satisfies by type): `Serialize` is the big-endian prefix `1 + len`,
then the ID byte, then the payload; parsing those bytes returns the
same message, no error, leaving trailing bytes unread; and a frame with
prefix 0 parses as the keep-alive (nil message, nil error) consuming no
further bytes. -/
theorem c7_framing_roundTrip :
    ∀ (m : Message) (rest : List ℕ), m.ID < 256 → m.Payload.length + 1 < 2 ^ 32 →
      Message.Serialize m = putUint32BE (1 + m.Payload.length) ++ m.ID :: m.Payload ∧
      MessageFromStream (Message.Serialize m ++ rest) = .ok (some m, rest) ∧
      MessageFromStream (putUint32BE 0 ++ rest) = .ok (none, rest) := by
  intro m rest hid hlen
  have hser : Message.Serialize m =
      putUint32BE (1 + m.Payload.length) ++ m.ID :: m.Payload := by
    unfold Message.Serialize
    rw [Nat.mod_eq_of_lt (by omega), Nat.mod_eq_of_lt hid]
  refine ⟨hser, ?_, ?_⟩
  · rw [hser]
    have hfr := MessageFromStream_frame m.ID m.Payload rest hlen
    rw [Nat.add_comm m.Payload.length 1] at hfr
    simpa [List.append_assoc] using hfr
  · simp [MessageFromStream, putUint32BE, uint32BE]

/-- C7 (witness): the round trip at the message with ID 7 and payload
[1, 2, 3], followed by the stray byte 9. -/
theorem c7_framing_roundTrip_witness :
    (7 : ℕ) < 256 ∧ ([1, 2, 3] : List ℕ).length + 1 < 2 ^ 32 ∧
    (Message.Serialize ⟨7, [1, 2, 3]⟩ =
        putUint32BE (1 + ([1, 2, 3] : List ℕ).length) ++ 7 :: [1, 2, 3] ∧
     MessageFromStream (Message.Serialize ⟨7, [1, 2, 3]⟩ ++ [9]) =
        .ok (some ⟨7, [1, 2, 3]⟩, [9]) ∧
     MessageFromStream (putUint32BE 0 ++ [9]) = .ok (none, [9])) :=
  ⟨by decide, by decide, c7_framing_roundTrip ⟨7, [1, 2, 3]⟩ [9] (by decide) (by decide)⟩

/-- C8 (counterexample): the claim says any length prefix above the
1 MiB cap is rejected without reading a payload; but the code has no
cap — a frame with prefix 2^20 + 1 (> 1 MiB) is read in full and
returned without error. -/
theorem c8_counterexample :
    MessageFromStream (putUint32BE (2 ^ 20 + 1) ++ 7 :: List.replicate (2 ^ 20) 0) =
      .ok (some ⟨7, List.replicate (2 ^ 20) 0⟩, []) ∧
    (2 ^ 20 : ℕ) + 1 > 2 ^ 20 := by
  constructor
  · have h := MessageFromStream_frame 7 (List.replicate (2 ^ 20) 0) []
      (by rw [List.length_replicate]; norm_num)
    rw [List.length_replicate, List.append_nil] at h
    exact h
  · norm_num

/-- C8 (amended): `MessageFromStream` imposes no length cap at all: for
every length prefix `L = len(payload) + 1` that fits a `uint32`, even
one exceeding 1 MiB, the frame is parsed successfully whenever the
stream holds its bytes (it fails only on a short read). -/
theorem c8_no_length_cap :
    ∀ (idByte : ℕ) (payload rest : List ℕ),
      payload.length + 1 < 2 ^ 32 → 2 ^ 20 < payload.length + 1 →
      MessageFromStream (putUint32BE (payload.length + 1) ++ idByte :: payload ++ rest) =
        .ok (some ⟨idByte, payload⟩, rest) := by
  intro idByte payload rest h1 _
  exact MessageFromStream_frame idByte payload rest h1

/-- C8 (witness): the no-cap statement applied at a frame whose prefix
is 2^20 + 1 > 1 MiB. -/
theorem c8_no_length_cap_witness :
    (List.replicate (2 ^ 20) (0 : ℕ)).length + 1 < 2 ^ 32 ∧
    2 ^ 20 < (List.replicate (2 ^ 20) (0 : ℕ)).length + 1 ∧
    MessageFromStream
        (putUint32BE ((List.replicate (2 ^ 20) (0 : ℕ)).length + 1) ++
          3 :: List.replicate (2 ^ 20) 0 ++ [5]) =
      .ok (some ⟨3, List.replicate (2 ^ 20) 0⟩, [5]) :=
  ⟨by rw [List.length_replicate]; norm_num, by rw [List.length_replicate]; norm_num,
   c8_no_length_cap 3 (List.replicate (2 ^ 20) 0) [5]
     (by rw [List.length_replicate]; norm_num) (by rw [List.length_replicate]; norm_num)⟩

/-- C9: the claim says a piece message whose payload is shorter than 8
bytes yields an error instead of a panic.  The code slices
`msg.Payload[0:4]` and `[4:8]` unconditionally, so such payloads panic
(`none`); the index and begin fields are only read (and the block
returned) when the payload holds at least 8 bytes, and a wrong ID does
return an error. -/
theorem c9_pieceBlock_truncation_bug :
    PieceBlockFromMessage ⟨7, []⟩ = none ∧
    PieceBlockFromMessage ⟨7, [0, 0, 0, 0]⟩ = none ∧
    PieceBlockFromMessage ⟨7, [9, 9, 9, 9, 9, 9, 9]⟩ = none ∧
    PieceBlockFromMessage ⟨7, [0, 0, 0, 1, 0, 0, 0, 2, 9]⟩ =
      some (.ok ⟨1, 2, [9]⟩) ∧
    PieceBlockFromMessage ⟨5, []⟩ =
      some (.error "wrong message given: must be of type piece") := by
  decide

/-- C10: the claim says the per-piece loop never dereferences a nil
message on a keep-alive.  A keep-alive frame does make
`MessageFromStream` return the nil message with nil error; the
src/unnamed/part_000 loop guards with `msg != nil &&` and skips it, but
the src/src/torrents/pieces.go loop evaluates `msg.ID` with no nil
check — a nil-pointer dereference (`none`). -/
theorem c10_keepAlive_nil_deref :
    MessageFromStream [0, 0, 0, 0, 1, 2, 3] = .ok (none, [1, 2, 3]) ∧
    torrentsPieceGuard none = none ∧
    piecesPieceGuard none = false ∧
    torrentsPieceGuard (some ⟨7, []⟩) = some true ∧
    piecesPieceGuard (some ⟨7, []⟩) = true := by
  decide
